import Mathlib

/-!
Verification of the mini-redis framed binary protocol, store and
connection pipeline.  Byte buffers are modelled as `List Nat` (each
element a byte value); the `bytes` crate's cursor-advancing reads become
functions that return the remaining buffer alongside their result.
Big-endian reads (`get_u16`/`get_u32`) and little-endian writes
(`put_u16_le`/`put_u32_le`) are modelled with explicit `/ % 256`
arithmetic.
-/

namespace MiniRedis

/-- Constant `MAGIC: u16 = 0x5244` from src/protocol.rs. -/
def MAGIC : Nat := 0x5244

/-- Constant `VERSION: u8 = 1` from src/protocol.rs. -/
def VERSION : Nat := 1

/-- Constant `HEADER_LEN: usize = 12` from src/protocol.rs. -/
def HEADER_LEN : Nat := 12

/-- Constant `pub const MAX_FRAME: usize = 1024 * 1024` from src/protocol.rs. -/
def MAX_FRAME : Nat := 1024 * 1024

/-- Big-endian bytes of a u16 (`put_u16` in the tests writes this form). -/
def u16be (n : Nat) : List Nat := [n / 256 % 256, n % 256]

/-- Big-endian bytes of a u32. -/
def u32be (n : Nat) : List Nat :=
  [n / 16777216 % 256, n / 65536 % 256, n / 256 % 256, n % 256]

/-- Little-endian bytes of a u16 (`put_u16_le`). -/
def u16le (n : Nat) : List Nat := [n % 256, n / 256 % 256]

/-- Little-endian bytes of a u32 (`put_u32_le`). -/
def u32le (n : Nat) : List Nat :=
  [n % 256, n / 256 % 256, n / 65536 % 256, n / 16777216 % 256]

/-- Recombination of two big-endian bytes (`get_u16`). -/
def be16 (a b : Nat) : Nat := a * 256 + b

/-- Recombination of four big-endian bytes (`get_u32`). -/
def be32 (a b c d : Nat) : Nat := ((a * 256 + b) * 256 + c) * 256 + d

/-- Recombination of two little-endian bytes. -/
def le16 (a b : Nat) : Nat := a + b * 256

/-- Recombination of four little-endian bytes. -/
def le32 (a b c d : Nat) : Nat := a + b * 256 + c * 65536 + d * 16777216

/-- Type `enum OpCode` with Get = 1, Set = 2, Del = 3, from src/protocol.rs. -/
inductive OpCode where
  | get
  | set
  | del
deriving DecidableEq

/-- Type `enum Command` from src/protocol.rs (keys and values are `Bytes`). -/
inductive Command where
  | get (req_id : Nat) (key : List Nat)
  | set (req_id : Nat) (key : List Nat) (value : List Nat)
  | delete (req_id : Nat) (key : List Nat)
deriving DecidableEq

/-- Type `enum Response` from src/protocol.rs. -/
inductive Response where
  | ok (req_id : Nat) (value : Option (List Nat))
  | notFound (req_id : Nat)
  | err (req_id : Nat) (message : List Nat)
deriving DecidableEq

/-- Type `struct RequestFrameHeader` from src/protocol.rs. -/
structure RequestFrameHeader where
  opcode : OpCode
  req_id : Nat
  payload_len : Nat
deriving DecidableEq

/-- The opcode decoding performed by the `match frame.get_u8()` in
`parse_req_header` (1 => Get, 2 => Set, 3 => Del, other => error). -/
def decode_opcode (b : Nat) : Option OpCode :=
  match b with
  | 1 => some .get
  | 2 => some .set
  | 3 => some .del
  | _ => none

/-- Function `parse_req_header` from src/protocol.rs.  Mirrors the Rust byte
cursor: the returned list is the buffer as the caller sees it after the
call, including the bytes consumed by `get_u16`/`get_u8` before an early
`return None` (bad magic consumes 2 bytes, bad version 3, bad opcode 4;
a buffer shorter than `HEADER_LEN` is left untouched). -/
def parse_req_header (frame : List Nat) :
    Option RequestFrameHeader × List Nat :=
  if frame.length < HEADER_LEN then (none, frame)
  else
    match frame with
    | m1 :: m2 :: ver :: op :: a :: b :: c :: d :: e :: f :: g :: h :: rest =>
      if be16 m1 m2 = MAGIC then
        if ver = VERSION then
          match decode_opcode op with
          | some oc =>
            (some { opcode := oc, req_id := be32 a b c d,
                    payload_len := be32 e f g h }, rest)
          | none => (none, a :: b :: c :: d :: e :: f :: g :: h :: rest)
        else (none, op :: a :: b :: c :: d :: e :: f :: g :: h :: rest)
      else (none, ver :: op :: a :: b :: c :: d :: e :: f :: g :: h :: rest)
    | _ => (none, frame)

/-- Function `parse_get_command` from src/protocol.rs: `get_u16` for the key
length, then `split_to(key_len)`.  The fallback arm models a buffer with
fewer than 2 bytes, where the Rust `get_u16` would panic; `try_parse`
only calls this with at least `payload_len` bytes buffered. -/
def parse_get_command (buf : List Nat) (h : RequestFrameHeader) :
    Option Command × List Nat :=
  match buf with
  | l1 :: l2 :: rest =>
    if rest.length < be16 l1 l2 then (none, rest)
    else (some (.get h.req_id (rest.take (be16 l1 l2))),
          rest.drop (be16 l1 l2))
  | _ => (none, buf)

/-- Function `parse_del_command` from src/protocol.rs (same shape as GET). -/
def parse_del_command (buf : List Nat) (h : RequestFrameHeader) :
    Option Command × List Nat :=
  match buf with
  | l1 :: l2 :: rest =>
    if rest.length < be16 l1 l2 then (none, rest)
    else (some (.delete h.req_id (rest.take (be16 l1 l2))),
          rest.drop (be16 l1 l2))
  | _ => (none, buf)

/-- Function `parse_set_command` from src/protocol.rs: key length and key, then
an explicit `buf.len() < 4` check before `get_u32`, the value length,
and the value. -/
def parse_set_command (buf : List Nat) (h : RequestFrameHeader) :
    Option Command × List Nat :=
  match buf with
  | l1 :: l2 :: rest =>
    if rest.length < be16 l1 l2 then (none, rest)
    else
      match rest.drop (be16 l1 l2) with
      | v1 :: v2 :: v3 :: v4 :: rest2 =>
        if rest2.length < be32 v1 v2 v3 v4 then (none, rest2)
        else (some (.set h.req_id (rest.take (be16 l1 l2))
                      (rest2.take (be32 v1 v2 v3 v4))),
              rest2.drop (be32 v1 v2 v3 v4))
      | short => (none, short)
  | _ => (none, buf)

/-- Type `enum ParseState` with arms Header and Payload(RequestFrameHeader) from
src/protocol.rs. -/
inductive ParseState where
  | header
  | payload (h : RequestFrameHeader)
deriving DecidableEq

/-- The `ParseState::Payload` branch of `Frame::try_parse`: wait until
`payload_len` bytes are buffered, then run the opcode-specific parser
and reset the state to `Header` (returning whatever the payload parser
returned). -/
def try_parse_payload (h : RequestFrameHeader) (buf : List Nat) :
    Option Command × ParseState × List Nat :=
  if buf.length < h.payload_len then (none, .payload h, buf)
  else
    let r :=
      match h.opcode with
      | .get => parse_get_command buf h
      | .set => parse_set_command buf h
      | .del => parse_del_command buf h
    (r.1, .header, r.2)

/-- Function `Frame::try_parse` from src/protocol.rs.  The `loop` runs the
`Header` arm at most once (on success it `continue`s straight into the
`Payload` arm, which always returns), so one call is: parse a header if
in `Header` state, then try the payload. -/
def try_parse (st : ParseState) (buf : List Nat) :
    Option Command × ParseState × List Nat :=
  match st with
  | .header =>
    match parse_req_header buf with
    | (some h, buf2) => try_parse_payload h buf2
    | (none, buf2) => (none, .header, buf2)
  | .payload h => try_parse_payload h buf

/-- The `while let Some(command) = frame.try_parse(&mut buf)` drain loop
of `reader_task` (src/server.rs), collecting the commands dispatched.
`fuel` bounds the iteration count; every successful `try_parse` consumes
at least 14 bytes, so any fuel above `buf.length + 1` is equivalent. -/
def drain_commands : Nat → ParseState → List Nat →
    List Command × ParseState × List Nat
  | 0, st, buf => ([], st, buf)
  | fuel + 1, st, buf =>
    match try_parse st buf with
    | (some c, st2, buf2) =>
      let r := drain_commands fuel st2 buf2
      (c :: r.1, r.2.1, r.2.2)
    | (none, st2, buf2) => ([], st2, buf2)

/-- Decoder state carried across socket reads: the `Frame` state machine
plus the connection's `BytesMut` read buffer. -/
structure DecSt where
  st : ParseState
  buf : List Nat
deriving DecidableEq

/-- One socket read feeding `chunk` into the buffer followed by the
drain loop, as in `reader_task` (src/server.rs lines 43-68). -/
def feed (d : DecSt) (chunk : List Nat) : List Command × DecSt :=
  let b := d.buf ++ chunk
  let r := drain_commands (b.length + 1) d.st b
  (r.1, ⟨r.2.1, r.2.2⟩)

/-- A sequence of socket reads processed in order, accumulating the
dispatched commands. -/
def feed_all (d : DecSt) (chunks : List (List Nat)) :
    List Command × DecSt :=
  match chunks with
  | [] => ([], d)
  | ch :: rest =>
    let r := feed d ch
    let r2 := feed_all r.2 rest
    (r.1 ++ r2.1, r2.2)

/-- The decoder state of a fresh connection (`Frame::new()`, empty
buffer). -/
def decInit : DecSt := ⟨.header, []⟩

/-- Task `reader_task` (src/server.rs) viewed as the list of commands it
dispatches to the db channel for a given sequence of socket reads; the
task only ends at EOF (end of the read list) or on a channel error, and
treats a `None` from `try_parse` as "wait for more data". -/
def reader_run (reads : List (List Nat)) : List Command :=
  (feed_all decInit reads).1

/-- Function `encode_response` from src/protocol.rs: little-endian header via
`put_u16_le`/`put_u32_le`, then the payload.  `message.len() as u16`
becomes `% 65536`; the u32 length fields take their value `% 2^32`
byte-wise through `u32le`. -/
def encode_response (r : Response) : List Nat :=
  match r with
  | .ok req_id value =>
    match value with
    | some v =>
      u16le MAGIC ++ [VERSION, 0] ++ u32le req_id ++ u32le (4 + v.length)
        ++ u32le v.length ++ v
    | none => u16le MAGIC ++ [VERSION, 0] ++ u32le req_id ++ u32le 0
  | .notFound req_id =>
    u16le MAGIC ++ [VERSION, 1] ++ u32le req_id ++ u32le 0
  | .err req_id message =>
    u16le MAGIC ++ [VERSION, 2] ++ u32le req_id
      ++ u32le (2 + message.length % 65536)
      ++ u16le (message.length % 65536) ++ message

/-- The key-value store: `type Db = HashMap<Bytes, Bytes>` from
src/db.rs, modelled as an association list with unique keys. -/
abbrev Db := List (List Nat × List Nat)

/-- Type `enum DbCommand` from src/db.rs, minus the response channel (which
the shallow embedding replaces by returning the Response directly). -/
inductive DbCommand where
  | set (key : List Nat) (value : List Nat) (req_id : Nat)
  | get (key : List Nat) (req_id : Nat)
  | delete (key : List Nat) (req_id : Nat)
deriving DecidableEq

/-- Operation `HashMap::get` followed by `.map(|v| v.clone())`: the value bound to
`k`, if any. -/
def dbGet (k : List Nat) : Db → Option (List Nat)
  | [] => none
  | e :: rest => if e.1 = k then some e.2 else dbGet k rest

/-- Operation `HashMap::insert`: bind `k` to `v`, overwriting any prior binding. -/
def dbInsert (k v : List Nat) : Db → Db
  | [] => [(k, v)]
  | e :: rest => if e.1 = k then (k, v) :: rest else e :: dbInsert k v rest

/-- Operation `HashMap::remove`: drop the binding of `k` (extensionally; on the
unique-key lists the store actually builds this removes the one entry). -/
def dbRemove (k : List Nat) : Db → Db
  | [] => []
  | e :: rest => if e.1 = k then dbRemove k rest else e :: dbRemove k rest

/-- One iteration of the `db_manager` loop (src/db.rs lines 19-39):
perform the single map operation for the command and produce the single
Response sent on the command's channel. -/
def db_step (db : Db) : DbCommand → Db × Response
  | .get k req_id =>
    (db, match dbGet k db with
         | some v => .ok req_id (some v)
         | none => .notFound req_id)
  | .set k v req_id => (dbInsert k v db, .ok req_id none)
  | .delete k req_id =>
    (dbRemove k db, match dbGet k db with
                    | some v => .ok req_id (some v)
                    | none => .notFound req_id)

/-- Function `db_manager` run over a whole command sequence, tracking the store. -/
def db_run (ops : List DbCommand) (db : Db) : Db :=
  ops.foldl (fun d op => (db_step d op).1) db

/-- The inner `while let Ok(rx) = resp_rx.try_recv()` batching loop of
`writer_task` (src/server.rs lines 85-90).  `resps` is the FIFO content
of the response conduit (one entry per in-flight request, in the order
the reader enqueued the receivers); `oracle` says, per `try_recv` call,
whether a receiver was already queued (true) or `try_recv` returned
empty (false).  Each drained receiver is awaited and encoded. -/
def drain_batch : List Response → List Bool →
    List Nat × List Response × List Bool
  | resps, [] => ([], resps, [])
  | [], oracle => ([], [], oracle)
  | r :: rest, true :: oracle =>
    let b := drain_batch rest oracle
    (encode_response r ++ b.1, b.2.1, b.2.2)
  | resps, false :: oracle => ([], resps, oracle)

/-- Task `writer_task` (src/server.rs lines 73-103): block for the next
receiver, await and encode its response, opportunistically batch, write
the batch, loop until the channel is closed.  Returns the concatenated
byte stream written to the socket.  `fuel` bounds the outer loop; each
outer iteration consumes at least one queued response, so any fuel at
least `resps.length` is equivalent. -/
def writer_run : Nat → List Response → List Bool → List Nat
  | 0, _, _ => []
  | _ + 1, [], _ => []
  | fuel + 1, r :: rest, oracle =>
    let b := drain_batch rest oracle
    (encode_response r ++ b.1) ++ writer_run fuel b.2.1 b.2.2

/-- Modelled from the spec: the response wire format of section 4.1
(little-endian 12-byte header `magic|version|status|req_id|payload_len`,
then `val_len:u32|val` for an OK carrying a value, empty payload for OK
without value and NOT_FOUND, `msg_len:u16|msg` for ERR).  The repository
contains no response decoder (clients are external), so this is the
spec's decoder, used for the round-trip claim. -/
def decode_response (buf : List Nat) : Option Response :=
  match buf with
  | m1 :: m2 :: ver :: st :: r1 :: r2 :: r3 :: r4 :: p1 :: p2 :: p3 :: p4 :: rest =>
    if le16 m1 m2 = MAGIC ∧ ver = VERSION then
      if rest.length < le32 p1 p2 p3 p4 then none
      else
        match st with
        | 0 =>
          if le32 p1 p2 p3 p4 = 0 then some (.ok (le32 r1 r2 r3 r4) none)
          else
            match rest with
            | v1 :: v2 :: v3 :: v4 :: rest2 =>
              if 4 + le32 v1 v2 v3 v4 = le32 p1 p2 p3 p4 ∧
                  le32 v1 v2 v3 v4 ≤ rest2.length then
                some (.ok (le32 r1 r2 r3 r4)
                  (some (rest2.take (le32 v1 v2 v3 v4))))
              else none
            | _ => none
        | 1 => some (.notFound (le32 r1 r2 r3 r4))
        | 2 =>
          match rest with
          | l1 :: l2 :: rest2 =>
            if le16 l1 l2 ≤ rest2.length then
              some (.err (le32 r1 r2 r3 r4) (rest2.take (le16 l1 l2)))
            else none
          | _ => none
        | _ => none
    else none
  | _ => none

/-- The opcode byte a client writes for a command (as in the
src/protocol.rs tests: `OpCode::Get as u8` etc.). -/
def req_opcode_byte : Command → Nat
  | .get _ _ => 1
  | .set _ _ _ => 2
  | .delete _ _ => 3

/-- The `OpCode` of a command. -/
def req_opcode : Command → OpCode
  | .get _ _ => .get
  | .set _ _ _ => .set
  | .delete _ _ => .del

/-- The request id carried by a command. -/
def req_id_of : Command → Nat
  | .get rid _ => rid
  | .set rid _ _ => rid
  | .delete rid _ => rid

/-- The request payload of a command, per the format documented in the
src/protocol.rs comment block and built by its tests:
GET/DEL `key_len:u16|key`, SET `key_len:u16|key|val_len:u32|val`,
all length fields big-endian. -/
def req_payload : Command → List Nat
  | .get _ k => u16be k.length ++ k
  | .delete _ k => u16be k.length ++ k
  | .set _ k v => u16be k.length ++ k ++ u32be v.length ++ v

/-- The 12 header bytes of a request frame for a command, as written by
the src/protocol.rs tests (`put_u16(MAGIC)`, `put_u8(VERSION)`, opcode,
`put_u32(req_id)`, `put_u32(payload_len)`, all big-endian). -/
def req_hdr_bytes (c : Command) : List Nat :=
  u16be MAGIC ++ [VERSION, req_opcode_byte c] ++ u32be (req_id_of c)
    ++ u32be (req_payload c).length

/-- A full well-formed request frame for a command: header then payload,
with `payload_len` equal to the actual payload size. -/
def encode_request (c : Command) : List Nat :=
  req_hdr_bytes c ++ req_payload c

/-- The header `Frame::try_parse` recovers from a well-formed frame. -/
def req_header_of (c : Command) : RequestFrameHeader :=
  ⟨req_opcode c, req_id_of c, (req_payload c).length⟩

/-- Field bounds making a command representable on the wire: the request
id fits a u32, the key length fits the u16 `key_len` field, and (for
SET) the payload length fits the u32 `payload_len` field. -/
def wellSizedCmd : Command → Prop
  | .get rid k => rid < 4294967296 ∧ k.length < 65536
  | .delete rid k => rid < 4294967296 ∧ k.length < 65536
  | .set rid k v =>
    rid < 4294967296 ∧ k.length < 65536 ∧
      2 + k.length + 4 + v.length < 4294967296

/-- Field bounds making a response exactly representable on the wire:
the request id fits a u32, an OK value's `4 + len` fits the u32
`payload_len` field, and an ERR message length fits the u16 `msg_len`
field. -/
def wellSizedResp : Response → Prop
  | .ok rid v =>
    rid < 4294967296 ∧
      (match v with
       | some val => 4 + val.length < 4294967296
       | none => True)
  | .notFound rid => rid < 4294967296
  | .err rid m => rid < 4294967296 ∧ m.length < 65536

/-- The decoder state reached after feeding an arbitrary prefix `p` of
the well-formed frame `encode_request c`: still hungry for the header
below 12 bytes, waiting in the `Payload` state with the header consumed
strictly inside the frame, and back to a fresh state once the whole
frame has been consumed. -/
def midState (c : Command) (p : List Nat) : DecSt :=
  if p.length < 12 then ⟨.header, p⟩
  else if p.length < (encode_request c).length then
    ⟨.payload (req_header_of c), p.drop 12⟩
  else ⟨.header, []⟩

/-- One step of the last-writer-wins specification: a SET on `k` makes
its value current, a DELETE on `k` clears it, anything else leaves the
current value alone. -/
def last_write_step (k : List Nat) (acc : Option (List Nat)) :
    DbCommand → Option (List Nat)
  | .set k2 v _ => if k2 = k then some v else acc
  | .delete k2 _ => if k2 = k then none else acc
  | .get _ _ => acc

/-- The value of the most recent SET on `k` in `ops` not followed by a
later DELETE on `k` (`none` when there is no such SET), straight from
the spec's wording of last-writer-wins. -/
def last_write_spec (ops : List DbCommand) (k : List Nat) :
    Option (List Nat) :=
  ops.foldl (last_write_step k) none

/-- The request id carried by a store command. -/
def cmd_req_id : DbCommand → Nat
  | .set _ _ rid => rid
  | .get _ rid => rid
  | .delete _ rid => rid

/-- The request id echoed in a response. -/
def resp_req_id : Response → Nat
  | .ok rid _ => rid
  | .notFound rid => rid
  | .err rid _ => rid

/-- The 12-byte little-endian response header
`magic|version|status|req_id|payload_len` of section 4.1. -/
def response_header_bytes (status rid plen : Nat) : List Nat :=
  u16le MAGIC ++ [VERSION, status] ++ u32le rid ++ u32le plen

/-! ### Byte-order round-trip arithmetic -/

theorem be16_u16be (n : Nat) :
    be16 (n / 256 % 256) (n % 256) = n % 65536 := by
  simp only [be16]
  omega

theorem be32_u32be (n : Nat) :
    be32 (n / 16777216 % 256) (n / 65536 % 256) (n / 256 % 256) (n % 256)
      = n % 4294967296 := by
  simp only [be32]
  omega

theorem le16_u16le (n : Nat) :
    le16 (n % 256) (n / 256 % 256) = n % 65536 := by
  simp only [le16]
  omega

theorem le32_u32le (n : Nat) :
    le32 (n % 256) (n / 256 % 256) (n / 65536 % 256) (n / 16777216 % 256)
      = n % 4294967296 := by
  simp only [le32]
  omega

/-! ### Header parser characterization -/

theorem parse_req_header_short (frame : List Nat)
    (h : frame.length < HEADER_LEN) :
    parse_req_header frame = (none, frame) := by
  unfold parse_req_header
  rw [if_pos h]

theorem parse_req_header_ok (opb rid plen : Nat) (oc : OpCode)
    (rest : List Nat) (hop : decode_opcode opb = some oc)
    (hrid : rid < 4294967296) (hplen : plen < 4294967296) :
    parse_req_header
        (u16be MAGIC ++ [VERSION, opb] ++ u32be rid ++ u32be plen ++ rest)
      = (some ⟨oc, rid, plen⟩, rest) := by
  unfold parse_req_header
  simp only [u16be, u32be, MAGIC, VERSION, HEADER_LEN, List.cons_append,
    List.nil_append, List.length_cons]
  rw [if_neg (by omega)]
  norm_num [be16_u16be, hop]
  rw [if_pos (by norm_num [be16])]
  rw [be32_u32be, be32_u32be, Nat.mod_eq_of_lt hrid, Nat.mod_eq_of_lt hplen]

/-! ### Payload parser characterization -/

theorem parse_get_command_ok (key tail : List Nat) (h : RequestFrameHeader)
    (hk : key.length < 65536) :
    parse_get_command (u16be key.length ++ (key ++ tail)) h
      = (some (.get h.req_id key), tail) := by
  simp only [u16be, List.cons_append, List.nil_append, parse_get_command]
  rw [be16_u16be, Nat.mod_eq_of_lt hk]
  rw [if_neg (by simp)]
  rw [List.take_left, List.drop_left]

theorem parse_del_command_ok (key tail : List Nat) (h : RequestFrameHeader)
    (hk : key.length < 65536) :
    parse_del_command (u16be key.length ++ (key ++ tail)) h
      = (some (.delete h.req_id key), tail) := by
  simp only [u16be, List.cons_append, List.nil_append, parse_del_command]
  rw [be16_u16be, Nat.mod_eq_of_lt hk]
  rw [if_neg (by simp)]
  rw [List.take_left, List.drop_left]

theorem parse_set_command_ok (key val tail : List Nat)
    (h : RequestFrameHeader) (hk : key.length < 65536)
    (hv : val.length < 4294967296) :
    parse_set_command
        (u16be key.length ++ (key ++ (u32be val.length ++ (val ++ tail)))) h
      = (some (.set h.req_id key val), tail) := by
  simp only [u16be, List.cons_append, List.nil_append, parse_set_command]
  rw [be16_u16be, Nat.mod_eq_of_lt hk]
  rw [if_neg (by simp)]
  rw [List.take_left, List.drop_left]
  simp only [u32be, List.cons_append, List.nil_append]
  rw [be32_u32be, Nat.mod_eq_of_lt hv]
  rw [if_neg (by simp)]
  rw [List.take_left, List.drop_left]

/-! ### `try_parse` characterization -/

theorem try_parse_header_short (buf : List Nat) (h : buf.length < 12) :
    try_parse .header buf = (none, .header, buf) := by
  simp only [try_parse, parse_req_header_short buf h]

theorem try_parse_payload_wait (h : RequestFrameHeader) (buf : List Nat)
    (hlen : buf.length < h.payload_len) :
    try_parse_payload h buf = (none, .payload h, buf) := by
  simp only [try_parse_payload]
  rw [if_pos hlen]

/-- The payload length field of a well-formed frame. -/
theorem req_payload_length (c : Command) :
    (req_payload c).length =
      match c with
      | .get _ k => 2 + k.length
      | .delete _ k => 2 + k.length
      | .set _ k v => 2 + k.length + (4 + v.length) := by
  cases c <;> simp [req_payload, u16be, u32be] <;> omega

theorem req_payload_length_lt (c : Command) (hc : wellSizedCmd c) :
    (req_payload c).length < 4294967296 := by
  cases c <;> simp_all [req_payload_length, wellSizedCmd] <;> omega

theorem decode_req_opcode_byte (c : Command) :
    decode_opcode (req_opcode_byte c) = some (req_opcode c) := by
  cases c <;> rfl

/-- Completing the payload: from the `Payload` state, a buffer holding
the whole payload of a well-formed frame (plus anything after it) parses
to exactly that command, consuming exactly the payload. -/
theorem try_parse_payload_full (c : Command) (tail : List Nat)
    (hc : wellSizedCmd c) :
    try_parse_payload (req_header_of c) (req_payload c ++ tail)
      = (some c, .header, tail) := by
  cases c with
  | get rid k =>
    obtain ⟨h1, h2⟩ := hc
    simp only [try_parse_payload, req_header_of, req_opcode, req_id_of,
      req_payload, List.append_assoc]
    rw [if_neg (by simp [u16be])]
    rw [parse_get_command_ok k tail _ h2]
  | delete rid k =>
    obtain ⟨h1, h2⟩ := hc
    simp only [try_parse_payload, req_header_of, req_opcode, req_id_of,
      req_payload, List.append_assoc]
    rw [if_neg (by simp [u16be])]
    rw [parse_del_command_ok k tail _ h2]
  | set rid k v =>
    obtain ⟨h1, h2, h3⟩ := hc
    simp only [try_parse_payload, req_header_of, req_opcode, req_id_of,
      req_payload, List.append_assoc]
    rw [if_neg (by simp [u16be, u32be])]
    rw [parse_set_command_ok k v tail _ h2 (by omega)]

/-- Parsing the header of a well-formed frame and then waiting: with the
12 header bytes plus a strict payload portion buffered, one `try_parse`
call consumes the header and reports "wait for more data". -/
theorem try_parse_header_wait (c : Command) (s : List Nat)
    (hc : wellSizedCmd c) (hs : s.length < (req_payload c).length) :
    try_parse .header (req_hdr_bytes c ++ s)
      = (none, .payload (req_header_of c), s) := by
  have hrid : req_id_of c < 4294967296 := by
    cases c <;> simp_all [wellSizedCmd, req_id_of]
  simp only [try_parse, req_hdr_bytes, List.append_assoc]
  rw [show u16be MAGIC ++ ([VERSION, req_opcode_byte c] ++
        (u32be (req_id_of c) ++ (u32be (req_payload c).length ++ s)))
      = u16be MAGIC ++ [VERSION, req_opcode_byte c] ++ u32be (req_id_of c)
        ++ u32be (req_payload c).length ++ s by simp]
  rw [parse_req_header_ok _ _ _ _ s (decode_req_opcode_byte c) hrid
    (req_payload_length_lt c hc)]
  exact try_parse_payload_wait _ s hs

/-- Parsing a complete well-formed frame (plus anything after it) from
the `Header` state yields exactly its command, consuming exactly the
frame. -/
theorem try_parse_full (c : Command) (tail : List Nat)
    (hc : wellSizedCmd c) :
    try_parse .header (encode_request c ++ tail)
      = (some c, .header, tail) := by
  have hrid : req_id_of c < 4294967296 := by
    cases c <;> simp_all [wellSizedCmd, req_id_of]
  simp only [try_parse, encode_request, req_hdr_bytes, List.append_assoc]
  rw [show u16be MAGIC ++ ([VERSION, req_opcode_byte c] ++
        (u32be (req_id_of c) ++ (u32be (req_payload c).length ++
          (req_payload c ++ tail))))
      = u16be MAGIC ++ [VERSION, req_opcode_byte c] ++ u32be (req_id_of c)
        ++ u32be (req_payload c).length ++ (req_payload c ++ tail) by simp]
  rw [parse_req_header_ok _ _ _ _ _ (decode_req_opcode_byte c) hrid
    (req_payload_length_lt c hc)]
  exact try_parse_payload_full c tail hc

/-! ### Drain loop characterization -/

theorem drain_commands_none (fuel : Nat) (st : ParseState) (buf : List Nat)
    (st2 : ParseState) (buf2 : List Nat)
    (h : try_parse st buf = (none, st2, buf2)) :
    drain_commands (fuel + 1) st buf = ([], st2, buf2) := by
  simp only [drain_commands, h]

theorem drain_commands_one (fuel : Nat) (st : ParseState) (buf : List Nat)
    (c : Command) (buf2 : List Nat)
    (h : try_parse st buf = (some c, .header, buf2))
    (h2 : buf2.length < 12) :
    drain_commands (fuel + 2) st buf = ([c], .header, buf2) := by
  have h3 : fuel + 2 = (fuel + 1) + 1 := by omega
  rw [h3]
  simp only [drain_commands, h, try_parse_header_short buf2 h2]

theorem feed_eq (d : DecSt) (chunk : List Nat) :
    feed d chunk =
      (let r := drain_commands ((d.buf ++ chunk).length + 1) d.st
        (d.buf ++ chunk)
       (r.1, ⟨r.2.1, r.2.2⟩)) := rfl

/-- The frame of a well-sized command is at least 14 bytes long. -/
theorem encode_request_length (c : Command) :
    (encode_request c).length = 12 + (req_payload c).length := by
  simp [encode_request, req_hdr_bytes, u16be, u32be]
  omega

theorem req_payload_length_ge (c : Command) :
    2 ≤ (req_payload c).length := by
  cases c <;> simp [req_payload, u16be]

/-- Advancing the decoder one chunk: feeding `q` after a fed prefix `p`
of a well-formed frame produces the command exactly when the frame is
completed by `q`, and moves the decoder to the state determined by the
new prefix `p ++ q`. -/
theorem feed_step (c : Command) (hc : wellSizedCmd c) (p q r : List Nat)
    (hspl : p ++ q ++ r = encode_request c) :
    feed (midState c p) q
      = ((if r = [] ∧ p.length < (encode_request c).length then [c]
          else []), midState c (p ++ q)) := by
  have hF : (encode_request c).length = 12 + (req_payload c).length :=
    encode_request_length c
  have hpay2 : 2 ≤ (req_payload c).length := req_payload_length_ge c
  have hlen : p.length + q.length + r.length = (encode_request c).length := by
    have h0 := congrArg List.length hspl
    simp only [List.length_append] at h0
    exact h0
  by_cases hp12 : p.length < 12
  · -- decoder still collecting the header
    rw [show midState c p = ⟨.header, p⟩ from by
      unfold midState
      rw [if_pos hp12]]
    by_cases hpq12 : (p ++ q).length < 12
    · -- still short of a header: nothing consumed
      have hpq12n : p.length + q.length < 12 := by
        simpa [List.length_append] using hpq12
      have hr : r ≠ [] := by
        intro h
        subst h
        simp only [List.length_nil] at hlen
        omega
      rw [show midState c (p ++ q) = ⟨.header, p ++ q⟩ from by
        unfold midState
        rw [if_pos hpq12]]
      simp only [feed, List.append_nil]
      rw [drain_commands_none _ _ _ _ _
        (try_parse_header_short (p ++ q) hpq12)]
      simp [hr]
    · have hpq12n : 12 ≤ p.length + q.length := by
        have := hpq12
        simp only [List.length_append] at this
        omega
      have hhdr12 : (req_hdr_bytes c).length = 12 := by
        simp [req_hdr_bytes, u16be, u32be]
      have hsplit2 : req_hdr_bytes c ++ req_payload c = (p ++ q) ++ r := by
        rw [← encode_request, ← hspl]
      have htake : (p ++ q).take 12 = req_hdr_bytes c := by
        have t1 : ((p ++ q) ++ r).take 12 = (p ++ q).take 12 := by
          rw [List.take_append_eq_append_take]
          have : 12 - (p ++ q).length = 0 := by
            simp only [List.length_append]
            omega
          rw [this]
          simp
        have t2 : (req_hdr_bytes c ++ req_payload c).take 12
            = req_hdr_bytes c := by
          conv_lhs => rw [← hhdr12]
          exact List.take_left _ _
        rw [hsplit2] at t2
        rw [← t1, t2]
      have hs : p ++ q = req_hdr_bytes c ++ (p ++ q).drop 12 := by
        conv_lhs => rw [← List.take_append_drop 12 (p ++ q)]
        rw [htake]
      have hpays : req_payload c = (p ++ q).drop 12 ++ r := by
        have d1 : ((p ++ q) ++ r).drop 12 = (p ++ q).drop 12 ++ r := by
          rw [List.drop_append_eq_append_drop]
          have : 12 - (p ++ q).length = 0 := by
            simp only [List.length_append]
            omega
          rw [this]
          simp
        have d2 : (req_hdr_bytes c ++ req_payload c).drop 12
            = req_payload c := by
          conv_lhs => rw [← hhdr12]
          exact List.drop_left _ _
        rw [hsplit2] at d2
        rw [← d2, d1]
      by_cases hfull : (p ++ q).length < (encode_request c).length
      · -- header consumed this chunk, payload incomplete
        have hfulln : p.length + q.length < (encode_request c).length := by
          simpa [List.length_append] using hfull
        have hslen : ((p ++ q).drop 12).length < (req_payload c).length := by
          simp only [List.length_drop, List.length_append]
          omega
        have hr : r ≠ [] := by
          intro h
          subst h
          simp only [List.length_nil] at hlen
          omega
        rw [show midState c (p ++ q)
            = ⟨.payload (req_header_of c), (p ++ q).drop 12⟩ from by
          unfold midState
          rw [if_neg (by omega), if_pos hfull]]
        simp only [feed, List.append_nil]
        have hx : try_parse .header (p ++ q)
            = (none, .payload (req_header_of c), (p ++ q).drop 12) := by
          conv_lhs => rw [hs]
          exact try_parse_header_wait c _ hc hslen
        rw [drain_commands_none _ _ _ _ _ hx]
        simp [hr]
      · -- the frame is completed exactly by this chunk
        have hfulln : ¬ p.length + q.length < (encode_request c).length := by
          intro h
          exact hfull (by simpa [List.length_append] using h)
        have hr : r = [] := by
          have h0 : r.length = 0 := by omega
          exact List.length_eq_zero.mp h0
        subst hr
        have hpq : p ++ q = encode_request c := by
          simpa using hspl
        rw [show midState c (p ++ q) = ⟨.header, []⟩ from by
          unfold midState
          rw [if_neg (by omega), if_neg (by omega)]]
        simp only [feed, List.append_nil]
        have hx : try_parse .header (p ++ q) = (some c, .header, []) := by
          conv_lhs => rw [hpq]
          simpa using try_parse_full c [] hc
        have hfl : (p ++ q).length + 1 = ((p ++ q).length - 1) + 2 := by
          simp only [List.length_append]
          omega
        rw [hfl]
        rw [drain_commands_one _ _ _ c [] hx (by simp)]
        have hcond : p.length < (encode_request c).length := by omega
        simp [hcond]
  · -- the header was consumed by an earlier chunk
    by_cases hpF : p.length < (encode_request c).length
    · -- in the Payload state with partial payload p.drop 12
      have hhdr12 : (req_hdr_bytes c).length = 12 := by
        simp [req_hdr_bytes, u16be, u32be]
      have hsplit2 : req_hdr_bytes c ++ req_payload c = p ++ (q ++ r) := by
        rw [← encode_request, ← hspl]
        simp
      have hpays : req_payload c = p.drop 12 ++ (q ++ r) := by
        have d1 : (p ++ (q ++ r)).drop 12 = p.drop 12 ++ (q ++ r) := by
          rw [List.drop_append_eq_append_drop]
          have : 12 - p.length = 0 := by omega
          rw [this]
          simp
        have d2 : (req_hdr_bytes c ++ req_payload c).drop 12
            = req_payload c := by
          conv_lhs => rw [← hhdr12]
          exact List.drop_left _ _
        rw [hsplit2] at d2
        rw [← d2, d1]
      have hplen : (req_payload c).length
          = p.length - 12 + (q.length + r.length) := by
        have := congrArg List.length hpays
        simpa [List.length_append] using this
      rw [show midState c p = ⟨.payload (req_header_of c), p.drop 12⟩
          from by
        unfold midState
        rw [if_neg hp12, if_pos hpF]]
      by_cases hfull : (p ++ q).length < (encode_request c).length
      · -- payload still incomplete
        have hfulln : p.length + q.length < (encode_request c).length := by
          simpa [List.length_append] using hfull
        have hr : r ≠ [] := by
          intro h
          subst h
          simp only [List.length_nil] at hlen
          omega
        have hwait : (p.drop 12 ++ q).length < (req_payload c).length := by
          simp only [List.length_append, List.length_drop]
          omega
        have hdrp : (p ++ q).drop 12 = p.drop 12 ++ q := by
          rw [List.drop_append_eq_append_drop]
          have : 12 - p.length = 0 := by omega
          rw [this]
          simp
        rw [show midState c (p ++ q)
            = ⟨.payload (req_header_of c), p.drop 12 ++ q⟩ from by
          unfold midState
          rw [if_neg (by simp only [List.length_append]; omega),
            if_pos hfull, hdrp]]
        simp only [feed]
        have hx : try_parse (.payload (req_header_of c)) (p.drop 12 ++ q)
            = (none, .payload (req_header_of c), p.drop 12 ++ q) := by
          simp only [try_parse]
          exact try_parse_payload_wait _ _ hwait
        rw [drain_commands_none _ _ _ _ _ hx]
        simp [hr]
      · -- this chunk completes the payload
        have hfulln : ¬ p.length + q.length < (encode_request c).length := by
          intro h
          exact hfull (by simpa [List.length_append] using h)
        have hr : r = [] := by
          have h0 : r.length = 0 := by omega
          exact List.length_eq_zero.mp h0
        subst hr
        have hpay : p.drop 12 ++ q = req_payload c := by
          rw [hpays]
          simp
        rw [show midState c (p ++ q) = ⟨.header, []⟩ from by
          unfold midState
          rw [if_neg (by simp only [List.length_append]; omega),
            if_neg (by simp only [List.length_append]; omega)]]
        simp only [feed]
        have hx : try_parse (.payload (req_header_of c)) (p.drop 12 ++ q)
            = (some c, .header, []) := by
          simp only [try_parse]
          rw [hpay]
          simpa using try_parse_payload_full c [] hc
        have hbl : (p.drop 12 ++ q).length + 1
            = ((p.drop 12 ++ q).length - 1) + 2 := by
          have := congrArg List.length hpay
          simp only [List.length_append, List.length_drop] at this
          simp only [List.length_append, List.length_drop]
          omega
        rw [hbl]
        rw [drain_commands_one _ _ _ c [] hx (by simp)]
        simp [hpF]
    · -- the whole frame was already consumed: p = F, q = r = []
      have hq : q = [] := by
        have h0 : q.length = 0 := by omega
        exact List.length_eq_zero.mp h0
      have hr : r = [] := by
        have h0 : r.length = 0 := by omega
        exact List.length_eq_zero.mp h0
      subst hq
      subst hr
      rw [show midState c p = ⟨.header, []⟩ from by
        unfold midState
        rw [if_neg hp12, if_neg hpF]]
      rw [show midState c (p ++ []) = ⟨.header, []⟩ from by
        unfold midState
        rw [if_neg (by simpa using hp12), if_neg (by simpa using hpF)]]
      simp only [feed, List.append_nil]
      rw [drain_commands_none _ _ _ _ _
        (try_parse_header_short [] (by simp))]
      simp only [List.nil_append]
      rw [if_neg (by
        intro h
        exact hpF h.2)]

/-- Feeding any chunk sequence covering a middle portion of a
well-formed frame: the commands produced are exactly `[c]` when the
chunks complete the frame (and the frame was not already complete), and
nothing otherwise; the decoder lands in the state of the new prefix. -/
theorem feed_all_mid (c : Command) (hc : wellSizedCmd c) :
    ∀ (chunks : List (List Nat)) (p rest : List Nat),
      p ++ chunks.flatten ++ rest = encode_request c →
      feed_all (midState c p) chunks
        = ((if rest = [] ∧ p.length < (encode_request c).length then [c]
            else []), midState c (p ++ chunks.flatten)) := by
  intro chunks
  induction chunks with
  | nil =>
    intro p rest hspl
    simp only [List.flatten_nil, List.append_nil] at hspl ⊢
    simp only [feed_all]
    rw [if_neg (by
      rintro ⟨h1, h2⟩
      subst h1
      simp only [List.append_nil] at hspl
      subst hspl
      omega)]
  | cons q qs ih =>
    intro p rest hspl
    simp only [List.flatten_cons] at hspl ⊢
    have hspl2 : p ++ q ++ (qs.flatten ++ rest) = encode_request c := by
      rw [← hspl]
      simp
    simp only [feed_all]
    rw [feed_step c hc p q (qs.flatten ++ rest) hspl2]
    have hspl3 : (p ++ q) ++ qs.flatten ++ rest = encode_request c := by
      rw [← hspl]
      simp
    rw [ih (p ++ q) rest hspl3]
    have hFlen : p.length + q.length + (qs.flatten.length + rest.length)
        = (encode_request c).length := by
      have h0 := congrArg List.length hspl2
      simp only [List.length_append] at h0
      omega
    by_cases hrest : rest = []
    · subst hrest
      simp only [List.length_nil] at hFlen
      by_cases hq2 : (p ++ q).length < (encode_request c).length
      · -- frame not yet complete after this chunk
        have hq2n : p.length + q.length < (encode_request c).length := by
          simpa [List.length_append] using hq2
        have hqsne : ¬ ∀ l ∈ qs, l = [] := by
          intro hall
          have h0 : qs.flatten = [] := List.flatten_eq_nil_iff.mpr hall
          have h1 := congrArg List.length h0
          simp only [List.length_nil] at h1
          omega
        have hplt : p.length < (encode_request c).length := by omega
        simp [hqsne, hq2n, hplt, List.append_assoc]
      · -- this chunk completed the frame; later chunks are all empty
        have hq2n : ¬ p.length + q.length < (encode_request c).length := by
          intro h0
          exact hq2 (by simpa [List.length_append] using h0)
        have hqs0 : qs.flatten = [] :=
          List.length_eq_zero.mp (by omega)
        simp [hqs0, hq2n, List.append_assoc]
    · -- the chunks do not reach the end of the frame
      have h1 : ¬ qs.flatten ++ rest = [] := by
        simp [hrest]
      simp [h1, hrest, List.append_assoc]

/-! ### Store lemmas -/

theorem dbGet_insert (k k2 v : List Nat) (db : Db) :
    dbGet k (dbInsert k2 v db) = if k2 = k then some v else dbGet k db := by
  induction db with
  | nil =>
    by_cases h : k2 = k <;> simp [dbInsert, dbGet, h]
  | cons e rest ih =>
    obtain ⟨a, b⟩ := e
    simp only [dbInsert]
    by_cases h : a = k2
    · by_cases h2 : k2 = k
      · simp [dbGet, h, h2]
      · have h3 : ¬ a = k := fun hh => h2 (h.symm.trans hh)
        simp [dbGet, h, h2, h3]
    · by_cases h2 : a = k
      · have h3 : ¬ k2 = k := fun hh => h (h2.trans hh.symm)
        have h4 : ¬ k = k2 := fun hh => h3 hh.symm
        simp [dbGet, h, h2, h3, h4]
      · simp [dbGet, h, h2, ih]

theorem dbGet_remove (k k2 : List Nat) (db : Db) :
    dbGet k (dbRemove k2 db) = if k2 = k then none else dbGet k db := by
  induction db with
  | nil => simp [dbRemove, dbGet]
  | cons e rest ih =>
    obtain ⟨a, b⟩ := e
    simp only [dbRemove]
    by_cases h : a = k2
    · by_cases h2 : k2 = k
      · subst h2
        simp [dbGet, h, ih]
      · have h3 : ¬ a = k := fun hh => h2 (h.symm.trans hh)
        simp [dbGet, h, h2, h3, ih]
    · by_cases h2 : a = k
      · have h3 : ¬ k2 = k := fun hh => h (h2.trans hh.symm)
        have h4 : ¬ k = k2 := fun hh => h3 hh.symm
        simp [dbGet, h, h2, h3, h4]
      · simp [dbGet, h, h2, ih]

theorem dbRemove_absent (k : List Nat) (db : Db)
    (h : dbGet k db = none) : dbRemove k db = db := by
  induction db with
  | nil => rfl
  | cons e rest ih =>
    by_cases h2 : e.1 = k
    · simp [dbGet, h2] at h
    · simp only [dbGet, h2, if_neg] at h
      simp [dbRemove, h2, ih h]

/-- The store read after one `db_manager` iteration matches one step of
the last-writer-wins specification. -/
theorem dbGet_step (k : List Nat) (db : Db) (op : DbCommand) :
    dbGet k (db_step db op).1 = last_write_step k (dbGet k db) op := by
  cases op with
  | get k2 rid => rfl
  | set k2 v rid => simp [db_step, last_write_step, dbGet_insert]
  | delete k2 rid =>
    cases hd : dbGet k2 db <;>
      simp [db_step, last_write_step, dbGet_remove, hd]

theorem dbGet_run (ops : List DbCommand) :
    ∀ (db : Db) (k : List Nat),
      dbGet k (db_run ops db) = ops.foldl (last_write_step k) (dbGet k db) := by
  induction ops with
  | nil => intro db k; rfl
  | cons op rest ih =>
    intro db k
    simp only [db_run, List.foldl_cons]
    have h0 := ih (db_step db op).1 k
    simp only [db_run] at h0
    rw [h0, dbGet_step]

/-- C3: for every key and every sequence of store operations starting
from the empty store, a GET returns `OK` with the value of the most
recent SET on that key when no later DELETE on it intervened, and
`NOT_FOUND` for a key never SET or whose last operation was DELETE. -/
theorem c3_get_last_writer_wins (ops : List DbCommand) (k : List Nat)
    (rid : Nat) :
    (db_step (db_run ops []) (.get k rid)).2
      = (match last_write_spec ops k with
         | some v => Response.ok rid (some v)
         | none => Response.notFound rid) := by
  have hg : dbGet k (db_run ops []) = last_write_spec ops k := by
    rw [dbGet_run ops [] k]
    rfl
  simp only [db_step, hg]

/-- C4: each `db_manager` iteration performs exactly one map operation
and produces exactly one Response echoing the item's req_id verbatim;
a SET unconditionally inserts and replies `OK{req_id, value: none}`; a
DELETE replies `OK{req_id, value: some(prior)}` and removes the key when
it was present, and replies `NOT_FOUND{req_id}` leaving the store
untouched when it was absent. -/
theorem c4_shard_worker_responses (db : Db) (cmd : DbCommand)
    (k v : List Nat) (rid : Nat) (dbh : Db) (kh w : List Nat) (ridh : Nat)
    (dbm : Db) (km : List Nat) (ridm : Nat)
    (hhit : dbGet kh dbh = some w) (hmiss : dbGet km dbm = none) :
    resp_req_id (db_step db cmd).2 = cmd_req_id cmd ∧
    (db_step db (.set k v rid)).2 = .ok rid none ∧
    dbGet k (db_step db (.set k v rid)).1 = some v ∧
    (db_step dbh (.delete kh ridh)).2 = .ok ridh (some w) ∧
    dbGet kh (db_step dbh (.delete kh ridh)).1 = none ∧
    (db_step dbm (.delete km ridm)).2 = .notFound ridm ∧
    (db_step dbm (.delete km ridm)).1 = dbm := by
  refine ⟨?_, rfl, ?_, ?_, ?_, ?_, ?_⟩
  · cases cmd with
    | get k2 rid2 =>
      cases hd : dbGet k2 db <;>
        simp [db_step, resp_req_id, cmd_req_id, hd]
    | set k2 v2 rid2 => rfl
    | delete k2 rid2 =>
      cases hd : dbGet k2 db <;>
        simp [db_step, resp_req_id, cmd_req_id, hd]
  · simp [db_step, dbGet_insert]
  · simp [db_step, hhit]
  · simp [db_step, dbGet_remove]
  · simp [db_step, hmiss]
  · simp [db_step, dbRemove_absent km dbm hmiss]

/-- Witness for C4 at a concrete store and commands. -/
theorem c4_shard_worker_responses_witness :
    dbGet [4] [([4], [5])] = some [5] ∧
    dbGet [7] ([] : Db) = none ∧
    (resp_req_id (db_step [] (.get [] 0)).2 = cmd_req_id (.get [] 0) ∧
     (db_step [] (.set [1] [2] 3)).2 = .ok 3 none ∧
     dbGet [1] (db_step [] (.set [1] [2] 3)).1 = some [2] ∧
     (db_step [([4], [5])] (.delete [4] 6)).2 = .ok 6 (some [5]) ∧
     dbGet [4] (db_step [([4], [5])] (.delete [4] 6)).1 = none ∧
     (db_step [] (.delete [7] 8)).2 = .notFound 8 ∧
     (db_step [] (.delete [7] 8)).1 = []) :=
  ⟨by decide, by decide,
   c4_shard_worker_responses [] (.get [] 0) [1] [2] 3 [([4], [5])] [4] [5] 6
     [] [7] 8 (by decide) (by decide)⟩

/-- C10: a GET leaves the whole store unchanged, and a SET or DELETE on
key `k` leaves the binding of every other key unchanged. -/
theorem c10_frame_property (db : Db) (k k2 v : List Nat) (rid : Nat)
    (h : k2 ≠ k) :
    (db_step db (.get k rid)).1 = db ∧
    dbGet k2 (db_step db (.set k v rid)).1 = dbGet k2 db ∧
    dbGet k2 (db_step db (.delete k rid)).1 = dbGet k2 db := by
  have h2 : ¬ k = k2 := by
    intro h3
    exact h h3.symm
  refine ⟨rfl, ?_, ?_⟩
  · simp [db_step, dbGet_insert, h2]
  · simp [db_step, dbGet_remove, h2]

/-- Witness for C10 at a concrete store. -/
theorem c10_frame_property_witness :
    ([2] : List Nat) ≠ [1] ∧
    ((db_step [([2], [9])] (.get [1] 0)).1 = [([2], [9])] ∧
     dbGet [2] (db_step [([2], [9])] (.set [1] [5] 1)).1
       = dbGet [2] [([2], [9])] ∧
     dbGet [2] (db_step [([2], [9])] (.delete [1] 2)).1
       = dbGet [2] [([2], [9])]) :=
  ⟨by decide, c10_frame_property [([2], [9])] [1] [2] [5] 0 (by decide)⟩

/-- C6: for every well-formed frame and every way of splitting its
bytes into chunks, feeding the chunks to a fresh decoder yields exactly
the one command of the frame once the last byte has arrived, and nothing
while any suffix `rest` is still missing — hence chunked feeding
(including byte-at-a-time) produces exactly what feeding the whole frame
in one chunk produces. -/
theorem c6_chunked_decode_eq_whole (c : Command) (chunks : List (List Nat))
    (rest : List Nat) (h1 : wellSizedCmd c)
    (h2 : chunks.flatten ++ rest = encode_request c) :
    (feed_all decInit chunks).1 = if rest = [] then [c] else [] := by
  have h3 : ([] : List Nat) ++ chunks.flatten ++ rest = encode_request c := by
    simpa using h2
  have hd : decInit = midState c [] := by
    unfold midState decInit
    rw [if_pos (by simp)]
  rw [hd, feed_all_mid c h1 chunks [] rest h3]
  have hFpos : 0 < (encode_request c).length := by
    rw [encode_request_length]
    omega
  by_cases hrest : rest = [] <;> simp [hrest, hFpos]

/-- Witness for C6: a GET frame for key "a" fed in eight chunks, some of
them single bytes, yields exactly its command. -/
theorem c6_chunked_decode_eq_whole_witness :
    (feed_all decInit
        [[0x52], [0x44], [1], [1], [0, 0, 0, 1], [0, 0, 0, 3], [0, 1],
          [97]]).1
      = [Command.get 1 [97]] := by
  have h := c6_chunked_decode_eq_whole (.get 1 [97])
    [[0x52], [0x44], [1], [1], [0, 0, 0, 1], [0, 0, 0, 3], [0, 1], [97]]
    [] (by norm_num [wellSizedCmd]) (by decide)
  simpa using h

/-! ### Writer task ordering -/

/-- The batching drain preserves the FIFO: the bytes it writes followed
by the encodings of what it leaves in the channel are exactly the
encodings of the whole channel content, for every readiness oracle; and
it never grows the channel. -/
theorem drain_batch_spec (oracle : List Bool) :
    ∀ resps : List Response,
      (drain_batch resps oracle).1
          ++ ((drain_batch resps oracle).2.1.map encode_response).flatten
        = (resps.map encode_response).flatten ∧
      (drain_batch resps oracle).2.1.length ≤ resps.length := by
  induction oracle with
  | nil => intro resps; simp [drain_batch]
  | cons b o ih =>
    intro resps
    cases resps with
    | nil => simp [drain_batch]
    | cons r rest =>
      cases b with
      | true =>
        have := ih rest
        simp only [drain_batch]
        constructor
        · simp only [List.map_cons, List.flatten_cons, List.append_assoc]
          rw [this.1]
        · exact le_trans this.2 (by simp only [List.length_cons]; omega)
      | false => simp [drain_batch]

/-- C5: the writer emits the responses of a connection in exactly the
order their requests entered the dispatch pipeline.  `resps` is the
per-connection response conduit content in submission order (the reader
enqueues each oneshot receiver right after dispatching its command, so
channel order is submission order); whatever the batching oracle does,
the byte stream written equals the submission-order concatenation of the
encoded responses. -/
theorem c5_writer_submission_order (fuel : Nat) :
    ∀ (resps : List Response) (oracle : List Bool),
      resps.length ≤ fuel →
      writer_run fuel resps oracle = (resps.map encode_response).flatten := by
  induction fuel with
  | zero =>
    intro resps oracle h
    have h0 : resps = [] := List.length_eq_zero.mp (by omega)
    subst h0
    rfl
  | succ n ih =>
    intro resps oracle h
    cases resps with
    | nil => rfl
    | cons r rest =>
      simp only [writer_run]
      have hs := drain_batch_spec oracle rest
      have hlen : rest.length ≤ n := by
        simp only [List.length_cons] at h
        omega
      rw [ih _ _ (le_trans hs.2 hlen)]
      simp only [List.map_cons, List.flatten_cons, List.append_assoc]
      rw [hs.1]

/-- Witness for C5: three queued responses with a mixed-readiness
oracle are written in submission order. -/
theorem c5_writer_submission_order_witness :
    ([Response.ok 1 none, .notFound 2, .ok 3 (some [9])].length ≤ 3) ∧
    writer_run 3 [Response.ok 1 none, .notFound 2, .ok 3 (some [9])]
        [true, false, true]
      = ([Response.ok 1 none, .notFound 2, .ok 3 (some [9])].map
          encode_response).flatten :=
  ⟨by decide,
   c5_writer_submission_order 3
     [Response.ok 1 none, .notFound 2, .ok 3 (some [9])]
     [true, false, true] (by decide)⟩

theorem u16be_length (n : Nat) : (u16be n).length = 2 := rfl

theorem u32be_length (n : Nat) : (u32be n).length = 4 := rfl

theorem u16le_length (n : Nat) : (u16le n).length = 2 := rfl

theorem u32le_length (n : Nat) : (u32le n).length = 4 := rfl

/-- A GET frame whose header declares an arbitrary `payload_len` parses
to a command as soon as that many bytes are buffered; nothing bounds
`payload_len` against `MAX_FRAME`. -/
theorem try_parse_declared_len_get (rid plen kl : Nat) (key tail : List Nat)
    (hkl : kl = key.length)
    (hrid : rid < 4294967296) (hplen : plen < 4294967296)
    (hk : key.length < 65536)
    (hlen : ¬ (u16be kl ++ (key ++ tail)).length < plen) :
    try_parse .header (u16be MAGIC ++ [VERSION, 1] ++ u32be rid
        ++ u32be plen ++ (u16be kl ++ (key ++ tail)))
      = (some (.get rid key), .header, tail) := by
  subst hkl
  simp only [try_parse]
  rw [parse_req_header_ok 1 rid plen .get _ rfl hrid hplen]
  simp only [try_parse_payload]
  rw [if_neg hlen]
  rw [parse_get_command_ok key tail ⟨.get, rid, plen⟩ hk]

/-! ### Claims about missing protocol-error handling -/

/-- C1 (code evaluated at the failing input): `MAX_FRAME` is never
checked.  A GET header carrying `payload_len = MAX_FRAME + 1 = 1048577`
is accepted by `parse_req_header`, and once that many bytes are buffered
`Frame::try_parse` produces a full `Command::Get` from the oversized
frame — the decoder neither fails nor closes anything, contradicting the
claim that `payload_len > MAX_FRAME` is a fatal connection error with no
Command produced. -/
theorem c1_oversized_frame_yields_command :
    MAX_FRAME < 1048577 ∧
    parse_req_header (u16be MAGIC ++ [VERSION, 1] ++ u32be 7
        ++ u32be 1048577)
      = (some ⟨.get, 7, 1048577⟩, []) ∧
    try_parse .header (u16be MAGIC ++ [VERSION, 1] ++ u32be 7
        ++ u32be 1048577
        ++ (u16be 3 ++ ([97, 98, 99] ++ List.replicate 1048572 0)))
      = (some (.get 7 [97, 98, 99]), .header, List.replicate 1048572 0) := by
  refine ⟨by norm_num [MAX_FRAME], ?_, ?_⟩
  · have h := parse_req_header_ok 1 7 1048577 .get [] rfl (by norm_num)
      (by norm_num)
    simpa using h
  · have hl : ¬ (u16be 3
        ++ ([97, 98, 99] ++ List.replicate 1048572 (0 : Nat))).length
          < 1048577 := by
      rw [List.length_append, List.length_append, List.length_replicate,
        u16be_length]
      norm_num
    exact try_parse_declared_len_get 7 1048577 3 [97, 98, 99]
      (List.replicate 1048572 0) (by norm_num) (by norm_num) (by norm_num)
      (by norm_num) hl

/-- C2 (code evaluated at the failing input): a bad-magic header is not
fatal.  `parse_req_header` consumes the two magic bytes and returns
`None`, indistinguishable from a short read, and `reader_task` keeps
reading: across the two reads `[0x00, 0x00] ++ <valid GET frame>` and
`[0x00]`, the reader dispatches the GET parsed from the bytes after the
bad magic instead of closing the connection. -/
theorem c2_bad_magic_not_fatal :
    parse_req_header
        [0, 0, 0x52, 0x44, 1, 1, 0, 0, 0, 42, 0, 0, 0, 3, 0, 1, 107]
      = (none, [0x52, 0x44, 1, 1, 0, 0, 0, 42, 0, 0, 0, 3, 0, 1, 107]) ∧
    reader_run
        [[0, 0, 0x52, 0x44, 1, 1, 0, 0, 0, 42, 0, 0, 0, 3, 0, 1, 107], [0]]
      = [Command.get 42 [107]] := by
  constructor
  · decide
  · decide

/-- C9 counterexample: the decoder accepts `key_len = 0`.  A GET frame
whose payload is the two bytes `key_len = 0` parses to a `Command` whose
key is the empty byte string, refuting the claim that the decoder never
yields an empty-key Command. -/
theorem c9_empty_key_parsed :
    (try_parse .header
        [0x52, 0x44, 1, 1, 0, 0, 0, 5, 0, 0, 0, 2, 0, 0]).1
      = some (.get 5 []) := by
  decide

/-- C9 amended: keys are not validated.  A SET frame with `key_len = 0`
decodes to a `Command::Set` with the empty key, and the store then binds
the empty key like any other key. -/
theorem c9_empty_key_reaches_store :
    (try_parse .header
        [0x52, 0x44, 1, 2, 0, 0, 0, 9, 0, 0, 0, 7, 0, 0, 0, 0, 0, 1, 118]).1
      = some (.set 9 [] [118]) ∧
    dbGet [] (db_step [] (.set [] [118] 9)).1 = some [118] := by
  constructor
  · decide
  · decide

/-- C8: the encoder is a pure function emitting a 12-byte little-endian
header followed by exactly the specified payload (an OK carrying a value
appends `val_len:u32` then the value bytes; OK without value and
NOT_FOUND have empty payloads; ERR appends `msg_len:u16` then the
message), while `parse_req_header` decodes every multi-byte request
header field big-endian. -/
theorem c8_encoder_layout_and_endianness (rid plen opb status : Nat)
    (oc : OpCode) (v m rest : List Nat) (hm : m.length < 65536)
    (hrid : rid < 4294967296) (hplen : plen < 4294967296)
    (hop : decode_opcode opb = some oc) :
    (response_header_bytes status rid plen).length = 12 ∧
    encode_response (.ok rid (some v))
      = response_header_bytes 0 rid (4 + v.length) ++ u32le v.length ++ v ∧
    encode_response (.ok rid none) = response_header_bytes 0 rid 0 ∧
    encode_response (.notFound rid) = response_header_bytes 1 rid 0 ∧
    encode_response (.err rid m)
      = response_header_bytes 2 rid (2 + m.length) ++ u16le m.length ++ m ∧
    parse_req_header
        (u16be MAGIC ++ [VERSION, opb] ++ u32be rid ++ u32be plen ++ rest)
      = (some ⟨oc, rid, plen⟩, rest) := by
  refine ⟨?_, ?_, ?_, ?_, ?_, ?_⟩
  · simp [response_header_bytes, u16le, u32le]
  · simp [encode_response, response_header_bytes, List.append_assoc]
  · simp [encode_response, response_header_bytes, List.append_assoc]
  · simp [encode_response, response_header_bytes, List.append_assoc]
  · simp [encode_response, response_header_bytes, Nat.mod_eq_of_lt hm,
      List.append_assoc]
  · exact parse_req_header_ok opb rid plen oc rest hop hrid hplen

/-- Witness for C8 at concrete field values. -/
theorem c8_encoder_layout_and_endianness_witness :
    (([7] : List Nat).length < 65536 ∧ (5 : Nat) < 4294967296 ∧
      (3 : Nat) < 4294967296 ∧ decode_opcode 1 = some OpCode.get) ∧
    ((response_header_bytes 0 5 3).length = 12 ∧
     encode_response (.ok 5 (some [9]))
       = response_header_bytes 0 5 (4 + ([9] : List Nat).length)
           ++ u32le ([9] : List Nat).length ++ [9] ∧
     encode_response (.ok 5 none) = response_header_bytes 0 5 0 ∧
     encode_response (.notFound 5) = response_header_bytes 1 5 0 ∧
     encode_response (.err 5 [7])
       = response_header_bytes 2 5 (2 + ([7] : List Nat).length)
           ++ u16le ([7] : List Nat).length ++ [7] ∧
     parse_req_header
         (u16be MAGIC ++ [VERSION, 1] ++ u32be 5 ++ u32be 3 ++ [1, 2, 3])
       = (some ⟨OpCode.get, 5, 3⟩, [1, 2, 3])) :=
  ⟨⟨by decide, by decide, by decide, by decide⟩,
   c8_encoder_layout_and_endianness 5 3 1 0 .get [9] [7] [1, 2, 3]
     (by decide) (by decide) (by decide) (by decide)⟩

/-- Decoding an encoded response recovers it whenever every length fits
its wire field. -/
theorem decode_encode_response (r : Response) (hr : wellSizedResp r) :
    decode_response (encode_response r) = some r := by
  cases r with
  | ok rid v =>
    cases v with
    | none =>
      have h1 : rid < 4294967296 := hr.1
      simp only [encode_response, decode_response, u16le, u32le,
        List.cons_append, List.nil_append]
      simp only [le16_u16le, le32_u32le]
      norm_num [MAGIC, VERSION, Nat.mod_eq_of_lt h1]
    | some val =>
      obtain ⟨h1, h2'⟩ := hr
      have h2 : 4 + val.length < 4294967296 := h2'
      have h3 : val.length < 4294967296 := by omega
      simp only [encode_response, decode_response, u16le, u32le,
        List.cons_append, List.nil_append]
      simp only [le16_u16le, le32_u32le]
      norm_num [MAGIC, VERSION, Nat.mod_eq_of_lt h1, Nat.mod_eq_of_lt h2,
        Nat.mod_eq_of_lt h3, List.length_append, List.take_length]
      intro hcon
      exact absurd hcon (by omega)
  | notFound rid =>
    have h1 : rid < 4294967296 := hr
    simp only [encode_response, decode_response, u16le, u32le,
      List.cons_append, List.nil_append]
    simp only [le16_u16le, le32_u32le]
    norm_num [MAGIC, VERSION, Nat.mod_eq_of_lt h1]
  | err rid m =>
    obtain ⟨h1, h2⟩ := hr
    have h3 : 2 + m.length < 4294967296 := by omega
    simp only [encode_response, Nat.mod_eq_of_lt h2]
    simp only [decode_response, u16le, u32le, List.cons_append,
      List.nil_append]
    simp only [le16_u16le, le32_u32le]
    norm_num [MAGIC, VERSION, Nat.mod_eq_of_lt h1, Nat.mod_eq_of_lt h2,
      Nat.mod_eq_of_lt h3, List.take_length]
    intro hcon
    exact absurd hcon (by omega)

/-- C7 (amended): the encode/decode round-trip holds for every Response
whose req_id fits a u32 and whose payload lengths fit their wire fields
(OK value: `4 + len` in u32; ERR message: len in u16), and for every
Command whose key and value lengths fit their wire fields the full
decoder parses its encoded frame back to exactly that Command. -/
theorem c7_roundtrip_well_sized (r : Response) (c : Command)
    (hr : wellSizedResp r) (hc : wellSizedCmd c) :
    decode_response (encode_response r) = some r ∧
    try_parse .header (encode_request c) = (some c, .header, []) := by
  constructor
  · exact decode_encode_response r hr
  · simpa using try_parse_full c [] hc

/-- Witness for C7 (amended) at a concrete Response and Command. -/
theorem c7_roundtrip_well_sized_witness :
    (wellSizedResp (.err 3 [65]) ∧ wellSizedCmd (.set 2 [1] [])) ∧
    (decode_response (encode_response (.err 3 [65])) = some (.err 3 [65]) ∧
     try_parse .header (encode_request (.set 2 [1] []))
       = (some (.set 2 [1] []), .header, [])) :=
  ⟨⟨by norm_num [wellSizedResp], by norm_num [wellSizedCmd]⟩,
   c7_roundtrip_well_sized (.err 3 [65]) (.set 2 [1] [])
     (by norm_num [wellSizedResp]) (by norm_num [wellSizedCmd])⟩

/-- An ERR frame with arbitrary declared message length decodes to the
truncated message the length fields select. -/
theorem decode_response_err (rid mlen plen : Nat) (msg : List Nat)
    (hrid : rid < 4294967296) (hplen : plen < 4294967296)
    (hwait : ¬ msg.length + 2 < plen) (hmlen : mlen < 65536)
    (htake : mlen ≤ msg.length) :
    decode_response (u16le MAGIC ++ [VERSION, 2] ++ u32le rid
        ++ u32le plen ++ (u16le mlen ++ msg))
      = some (.err rid (msg.take mlen)) := by
  simp only [decode_response, u16le, u32le, List.cons_append,
    List.nil_append]
  simp only [le16_u16le, le32_u32le]
  norm_num [MAGIC, VERSION, Nat.mod_eq_of_lt hrid, Nat.mod_eq_of_lt hplen,
    Nat.mod_eq_of_lt hmlen, htake]
  intro hcon
  exact absurd hcon (by omega)

/-- C7 counterexample: the round-trip fails as stated for every
Response.  `encode_response` truncates the ERR message length with
`as u16`, so a 65536-byte message is encoded with `msg_len = 0` and
decodes to an ERR with an empty message, not the original Response. -/
theorem c7_roundtrip_fails_for_long_err :
    decode_response (encode_response (.err 0 (List.replicate 65536 0)))
      ≠ some (.err 0 (List.replicate 65536 0)) := by
  have hlen : (List.replicate 65536 (0 : Nat)).length = 65536 :=
    List.length_replicate 65536 0
  have hgen := decode_response_err 0 0 2 (List.replicate 65536 (0 : Nat))
    (by norm_num) (by norm_num) (by rw [hlen]; norm_num) (by norm_num)
    (by rw [hlen]; norm_num)
  simp only [List.take_zero, List.append_assoc] at hgen
  have heq : decode_response
      (encode_response (.err 0 (List.replicate 65536 (0 : Nat))))
      = some (.err 0 []) := by
    simp only [encode_response, hlen]
    norm_num
    simpa only [List.append_assoc] using hgen
  rw [heq]
  intro h
  simp only [Option.some.injEq, Response.err.injEq, true_and] at h
  have h3 := congrArg List.length h
  rw [List.length_nil, hlen] at h3
  exact absurd h3 (by norm_num)

end MiniRedis
